import Mathlib

/-!
Verification of the s3-benchrunner-rust benchmark execution engine
(repository awslabs/aws-crt-s3-benchmarks, directory
src/runners/s3-benchrunner-rust).

The Rust source is shallowly embedded: pure logic becomes Lean functions,
external effects (file system, network, RNG, clock) become explicit inputs,
and fallible code returns Except.  Rust u32/u64 sizes are modeled as Nat
(the code performs no wrapping arithmetic on them), and f64 values that are
only ever compared or stored are modeled as ℚ.
-/

/-! ## Data model (src/lib.rs) -/

/-- Possible values for the action field of the workload JSON file
(`enum TaskAction`, src/lib.rs). -/
inductive TaskAction where
  | download
  | upload
deriving DecidableEq

/-- A task in the workload JSON file (`struct TaskConfig`, src/lib.rs). -/
structure TaskConfig where
  action : TaskAction
  key : String
  size : Nat
deriving DecidableEq

/-- The workload JSON file (`struct WorkloadConfig`, src/lib.rs). -/
structure WorkloadConfig where
  version : Nat
  files_on_disk : Bool
  checksum : Option String
  max_repeat_count : Nat
  max_repeat_secs : ℚ
  tasks : List TaskConfig
deriving DecidableEq

/-- All benchmark configuration (`struct BenchmarkConfig`, src/lib.rs). -/
structure BenchmarkConfig where
  workload : WorkloadConfig
  bucket : String
  region : String
  target_throughput_gigabits_per_sec : ℚ
  disable_directory : Bool
deriving DecidableEq

/-! ## Configuration loading (`BenchmarkConfig::new`, src/lib.rs)

The two error kinds of the runner: `SkipBenchmarkError` (src/lib.rs) versus
every other `anyhow` error, which terminates the process as a failure. -/

/-- Outcome kinds of a fallible runner operation: a distinguished skip
signal (`SkipBenchmarkError`) or a hard failure (plain anyhow error). -/
inductive BenchError where
  | skip (msg : String)
  | fail (msg : String)
deriving DecidableEq

/-- Model of `BenchmarkConfig::new` (src/lib.rs).  The two external effects,
opening the file and parsing its JSON against the `WorkloadConfig` schema,
are passed in as `Except` inputs.  An open failure propagates with `?` as a
plain (fail) error; a parse failure is converted to a skip via the
`skip_benchmark!` macro; a version other than 2 is likewise a skip. -/
def BenchmarkConfig.new (open_result : Except String Unit)
    (parse_result : Except String WorkloadConfig)
    (bucket region : String) (target_throughput_gigabits_per_sec : ℚ)
    (disable_directory : Bool) : Except BenchError BenchmarkConfig :=
  match open_result with
  | .error e => .error (.fail ("Failed opening workload file - " ++ e))
  | .ok _ =>
    match parse_result with
    | .error e =>
      .error (.skip ("Cannot parse workload. Different version maybe? - " ++ e))
    | .ok workload =>
      if workload.version ≠ 2 then
        .error (.skip "Workload version not supported")
      else
        .ok { workload := workload, bucket := bucket, region := region,
              target_throughput_gigabits_per_sec := target_throughput_gigabits_per_sec,
              disable_directory := disable_directory }

/-! ## Filesystem paths

Model of Rust `std::path::Path` for Unix (`MAIN_SEPARATOR` is the slash),
as used by `find_common_parent_dir` (src/transfer_manager.rs).  A path is
its component list plus an absolute flag; `components()` normalizes away
empty components and interior dot components (a leading dot component is
kept), which the parser below reproduces.  Strings are processed as their
character lists so that everything reduces inside the kernel. -/

/-- Split a character list on the slash separator. -/
def splitSlash : List Char → List (List Char)
  | [] => [[]]
  | c :: rest =>
    match splitSlash rest with
    | [] => [[c]]
    | h :: t => if c = '/' then [] :: h :: t else (c :: h) :: t

/-- Model of a Rust `Path`: RootDir flag plus normal components
(a component is the character list of its text; a leading CurDir component
is the component `"."`). -/
structure RPath where
  absolute : Bool
  comps : List (List Char)
deriving DecidableEq

/-- Parse a character list the way `Path::components()` does on Unix:
a leading slash is RootDir; empty components and dot components are
normalized away, except a dot component at the start. -/
def parseChars (cs : List Char) : RPath :=
  let absolute := match cs with | '/' :: _ => true | _ => false
  let raw := splitSlash cs
  let hasCurDir := (!absolute) && (raw.headD [] == ['.'])
  let norm := raw.filter (fun c => c ≠ [] ∧ c ≠ ['.'])
  ⟨absolute, if hasCurDir then ['.'] :: norm else norm⟩

/-- Model of `Path::new` on a Rust string. -/
def parsePath (s : String) : RPath := parseChars s.data

/-- Model of `Path::parent`: drop the final component; `None` for a root
or empty path. -/
def RPath.parent (p : RPath) : Option RPath :=
  match p.comps with
  | [] => none
  | _ => some ⟨p.absolute, p.comps.dropLast⟩

/-- Model of `Path::ancestors`: the path, then its parent, and so on down
to the root (for an absolute path) or the empty path (for a relative one).
Closed form: the component-list truncations, longest first. -/
def RPath.ancestors (p : RPath) : List RPath :=
  (List.range (p.comps.length + 1)).reverse.map (fun k => ⟨p.absolute, p.comps.take k⟩)

/-- Render a path back to a string, appending nothing:  a root flag prints
as a leading slash, components are joined by slashes.  (Rust `to_str` on
the paths produced here agrees with this rendering for the normalized keys
the benchmark uses.) -/
def RPath.render (p : RPath) : String :=
  (if p.absolute then "/" else "") ++ String.mk (List.intercalate ['/'] p.comps)

/-! ## Transfer strategy selector (`find_common_parent_dir`, src/transfer_manager.rs) -/

/-- One narrowing step of the loop body of `find_common_parent_dir`:
`common_root.ancestors().find(|ancestor| task_path.ancestors().any(|a| a == *ancestor))`. -/
def narrowStep (common_root : RPath) (key : String) : Option RPath :=
  common_root.ancestors.find? (fun anc => decide (anc ∈ (parsePath key).ancestors))

/-- Outcome of the narrowing loop inside `find_common_parent_dir`:
the `panic!` on mixed actions, the `?` early return when no shared
ancestor exists, or the final common root. -/
inductive NarrowOutcome where
  | fatal
  | noCommonRoot
  | found (common_root : RPath)
deriving DecidableEq

/-- The `for task in &config.workload.tasks` loop of
`find_common_parent_dir`: narrow the common root against each task key,
then `panic!` if that task's action differs from the first task's. -/
def narrowLoop (first_action : TaskAction) (common_root : RPath) :
    List TaskConfig → NarrowOutcome
  | [] => .found common_root
  | task :: rest =>
    match narrowStep common_root task.key with
    | none => .noCommonRoot
    | some cr2 =>
      if task.action ≠ first_action then .fatal
      else narrowLoop first_action cr2 rest

/-- The same narrowing fold without the action check; used to state when a
common filesystem root exists across a task list. -/
def narrowAll (common_root : RPath) : List TaskConfig → Option RPath
  | [] => some common_root
  | task :: rest =>
    match narrowStep common_root task.key with
    | none => none
    | some cr2 => narrowAll cr2 rest

/-- Result of transfer-strategy selection.  `fatal` models the `panic!`
inside `find_common_parent_dir`; `perObject` is the `None` return;
`directory` carries the common path with its trailing separator. -/
inductive FindResult where
  | fatal
  | perObject
  | directory (path : String)
deriving DecidableEq

/-- Model of `find_common_parent_dir` (src/transfer_manager.rs). -/
def find_common_parent_dir (config : BenchmarkConfig) : FindResult :=
  if config.workload.files_on_disk ∧ config.disable_directory = false
      ∧ 1 < config.workload.tasks.length then
    match config.workload.tasks with
    | [] => .perObject
    | first_task :: _ =>
      match (parsePath first_task.key).parent with
      | none => .perObject
      | some cr0 =>
        match narrowLoop first_task.action cr0 config.workload.tasks with
        | .fatal => .fatal
        | .noCommonRoot => .perObject
        | .found common_root => .directory (common_root.render ++ "/")
  else .perObject

/-- Build a concrete on-disk benchmark configuration for examples. -/
def mkDiskConfig (checksum : Option String) (tasks : List TaskConfig) : BenchmarkConfig :=
  ⟨⟨2, true, checksum, 1, 60, tasks⟩, "bkt", "rgn", 100, false⟩

/-- Example tasks of the directory-mode selection property: keys a/b/x,
a/b/y, a/c/z, all downloads. -/
def exampleDirTasks : List TaskConfig :=
  [⟨.download, "a/b/x", 1⟩, ⟨.download, "a/b/y", 1⟩, ⟨.download, "a/c/z", 1⟩]

/-- Example tasks with no shared filesystem ancestor: an absolute key and a
relative key have disjoint ancestor chains. -/
def exampleNoRootTasks : List TaskConfig :=
  [⟨.download, "/a/x", 1⟩, ⟨.download, "b/y", 1⟩]

example : find_common_parent_dir (mkDiskConfig none exampleDirTasks) = .directory "a/" := by
  decide

example : find_common_parent_dir (mkDiskConfig none exampleNoRootTasks) = .perObject := by
  decide

example :
    find_common_parent_dir
      (mkDiskConfig none [⟨.download, "a/b", 1⟩, ⟨.upload, "a/c", 1⟩]) = .fatal := by
  decide

example :
    find_common_parent_dir
      (mkDiskConfig none [⟨.download, "a/x", 1⟩, ⟨.download, "b/y", 1⟩]) =
      .directory "/" := by
  decide

/-! ## Payload synthesizer (`new_random_bytes`, src/transfer_manager.rs)

The RNG is an external effect: it is modeled as a function giving the byte
written at each index of the random part of the buffer.  Byte values are
opaque here, so the definitions are polymorphic in the element type. -/

/-- The `while data.len() < size` loop of `new_random_bytes`: repeatedly
`extend_from_within(0..extend_len)` with
`extend_len = min(data.len(), size - data.len())`.  (When the buffer is
empty and `size` is positive the Rust loop would never terminate; that
state is unreachable from `new_random_bytes`, and this model returns the
buffer unchanged there.) -/
def fillLoop {α : Type} (size : Nat) (data : List α) : List α :=
  if _h : 0 < data.length ∧ data.length < size then
    fillLoop size (data ++ data.take (min data.length (size - data.length)))
  else data
termination_by size - data.length
decreasing_by
  simp only [List.length_append, List.length_take]
  omega

/-- Model of `new_random_bytes` (src/transfer_manager.rs): fill a bounded
random part of `min 31415926 size` elements from the RNG, then copy that
randomness until the buffer reaches `size`. -/
def new_random_bytes {α : Type} (rng : Nat → α) (size : Nat) : List α :=
  let rand_len := min 31415926 size
  let data := (List.range rand_len).map rng
  fillLoop size data

/-! ## Runner construction (`TransferManagerRunner::new`, src/transfer_manager.rs) -/

/-- The size computed for the shared upload buffer in
`TransferManagerRunner::new`: zero when files are on disk, otherwise the
maximum size over upload tasks (`max().unwrap_or(0)`). -/
def upload_data_size (config : BenchmarkConfig) : Nat :=
  if config.workload.files_on_disk then 0
  else
    (((config.workload.tasks.filter (fun t => t.action = TaskAction.upload)).map
        (fun t => t.size)).max?).getD 0

/-- The `random_data_for_upload` field of the runner handle. -/
def random_data_for_upload {α : Type} (rng : Nat → α) (config : BenchmarkConfig) : List α :=
  new_random_bytes rng (upload_data_size config)

/-- The body stream chosen by `TransferManagerRunner::upload`: a file
stream when files are on disk, otherwise the slice
`random_data_for_upload.slice(0..task.size)`, which panics when the slice
range exceeds the buffer length. -/
inductive UploadStream (α : Type) where
  | fromPath (key : String)
  | fromSlice (bytes : List α)
  | slicePanicked
deriving DecidableEq

/-- Model of the stream selection in `TransferManagerRunner::upload`
(src/transfer_manager.rs). -/
def upload_stream {α : Type} (rng : Nat → α) (config : BenchmarkConfig)
    (task : TaskConfig) : UploadStream α :=
  if config.workload.files_on_disk then .fromPath task.key
  else if task.size ≤ (random_data_for_upload rng config).length then
    .fromSlice ((random_data_for_upload rng config).take task.size)
  else .slicePanicked

/-! ## Download task (`TransferManagerRunner::download`, src/transfer_manager.rs)

The transfer engine is an external collaborator; the chunk stream it
delivers is modeled as a list of results, each either an error or the byte
count of the chunk (`chunk.remaining()`).  Writing chunks to disk is an
external effect that does not change the byte accounting. -/

/-- Outcome of one download task: success, an error propagated with `?`,
or the `assert_eq!(total_size, task_config.size)` firing. -/
inductive DownloadOutcome where
  | ok
  | err (msg : String)
  | assertionFailed
deriving DecidableEq

/-- The `while let Some(chunk_result) = ...` loop of
`TransferManagerRunner::download`: accumulate `total_size`, propagating the
first chunk error. -/
def downloadLoop (total_size : Nat) : List (Except String Nat) → Except String Nat
  | [] => .ok total_size
  | .error e :: _ => .error e
  | .ok chunk_size :: rest => downloadLoop (total_size + chunk_size) rest

/-- Model of `TransferManagerRunner::download` (src/transfer_manager.rs):
drain the chunk stream, then `assert_eq!` the received total against the
task's declared size. -/
def download (task : TaskConfig) (chunks : List (Except String Nat)) : DownloadOutcome :=
  match downloadLoop 0 chunks with
  | .error e => .err ("failed downloading next chunk of " ++ task.key ++ " - " ++ e)
  | .ok total_size =>
    if total_size = task.size then .ok else .assertionFailed

/-! ## Run dispatch (`TransferManagerRunner::run`, src/transfer_manager.rs)

One run either issues a single directory-wide transfer or spawns one
concurrent task per object.  What happens inside those transfers involves
the network; the dispatch decision itself is pure and is modeled here. -/

/-- The branch taken by `TransferManagerRunner::run` for one benchmark run.
`skip` is the `skip_benchmark!` return for checksummed directory uploads;
`indexPanicked` models `tasks[0]` on an empty task list; `fatalStrategy`
propagates the strategy-selection panic, which in the real program already
happened inside `TransferManagerRunner::new`. -/
inductive RunDispatch where
  | skip (msg : String)
  | directoryDownload (path : String)
  | directoryUpload (path : String)
  | perObjectTasks (count : Nat)
  | indexPanicked
  | fatalStrategy
deriving DecidableEq

/-- Model of the dispatch in `TransferManagerRunner::run`
(src/transfer_manager.rs): with a transfer path, use the directory API,
except that a checksummed directory upload is skipped; without one, spawn
one task per workload entry. -/
def run_dispatch (config : BenchmarkConfig) : RunDispatch :=
  match find_common_parent_dir config with
  | .fatal => .fatalStrategy
  | .directory transfer_path =>
    match config.workload.tasks with
    | [] => .indexPanicked
    | first_task :: _ =>
      match first_task.action with
      | .download => .directoryDownload transfer_path
      | .upload =>
        if (config.workload.checksum).isSome then
          .skip "upload_objects does not let you specify checksum algorithm at this time"
        else .directoryUpload transfer_path
  | .perObject => .perObjectTasks config.workload.tasks.length

/-! ## Per-object task scheduler (`TransferManagerRunner::run`, src/transfer_manager.rs)

In per-object mode the run spawns one task per workload entry into a
JoinSet and then loops `while let Some(join_result) = task_set.join_next()`,
applying `?` to each task result.  The results arrive in completion order
from the runtime; that stream is an external input here, modeled as the
list of the task results in the order their completions are observed.
(`join_result.unwrap()` can only fail if a task panicked or was aborted;
the runner aborts nothing, and a task panic is already its own hard
failure, so join results are the task results themselves.) -/

/-- Model of the `join_next` drain loop of `TransferManagerRunner::run`
(src/transfer_manager.rs): consume completion-order results one by one,
returning the first error the moment it is observed, leaving every later
entry of the stream unexamined. -/
def runAll (results : List (Except String Unit)) : Except String Unit :=
  match results with
  | [] => .ok ()
  | .ok () :: rest => runAll rest
  | .error e :: _ => .error e

/-! ## Run loop controller (`execute`, src/main.rs)

Wall-clock time is an external input: `elapsed_after n` is the value of
`app_start.elapsed().as_secs_f64()` observed at the budget check after run
`n`, and `prep_ok`/`run_ok` say whether `prepare_run` and `runner.run()`
succeed on run `n`.  The controller returns how many runs completed and
whether it finished without a propagated error. -/

/-- The `for run_num in 1..=max_repeat_count` loop of `execute`
(src/main.rs), unrolled on the remaining iteration count. -/
def runLoopGo (max_repeat_secs : ℚ) (prep_ok run_ok : Nat → Bool)
    (elapsed_after : Nat → ℚ) (run_num : Nat) : Nat → Nat × Bool
  | 0 => (run_num - 1, true)
  | remaining + 1 =>
    if prep_ok run_num = false then (run_num - 1, false)
    else if run_ok run_num = false then (run_num - 1, false)
    else if max_repeat_secs ≤ elapsed_after run_num then (run_num, true)
    else runLoopGo max_repeat_secs prep_ok run_ok elapsed_after (run_num + 1) remaining

/-- Model of the repeat loop of `execute` (src/main.rs): run numbers start
at 1; after each completed run the loop breaks once
`app_start.elapsed() >= max_repeat_secs`. -/
def execute_runs (max_repeat_count : Nat) (max_repeat_secs : ℚ)
    (prep_ok run_ok : Nat → Bool) (elapsed_after : Nat → ℚ) : Nat × Bool :=
  runLoopGo max_repeat_secs prep_ok run_ok elapsed_after 1 max_repeat_count

/-! ## Helper lemmas: ancestors -/

lemma mem_ancestors {a p : RPath} :
    a ∈ p.ancestors ↔
      a.absolute = p.absolute ∧ ∃ k, k ≤ p.comps.length ∧ a.comps = p.comps.take k := by
  simp only [RPath.ancestors, List.mem_map, List.mem_reverse, List.mem_range]
  constructor
  · rintro ⟨k, hk, rfl⟩
    exact ⟨rfl, k, by omega, rfl⟩
  · rintro ⟨habs, k, hk, hcomps⟩
    refine ⟨k, by omega, ?_⟩
    cases a
    simp_all

lemma self_mem_ancestors (p : RPath) : p ∈ p.ancestors := by
  rw [mem_ancestors]
  exact ⟨rfl, p.comps.length, le_refl _, (List.take_length _).symm⟩

lemma ancestors_trans {a b c : RPath} (hab : a ∈ b.ancestors) (hbc : b ∈ c.ancestors) :
    a ∈ c.ancestors := by
  rw [mem_ancestors] at hab hbc ⊢
  obtain ⟨hab1, k, hk, hak⟩ := hab
  obtain ⟨hbc1, j, hj, hbj⟩ := hbc
  refine ⟨hab1.trans hbc1, min k j, by omega, ?_⟩
  rw [hak, hbj, List.take_take]

/-! ## Helper lemmas: narrowing -/

lemma narrowStep_some {cr cr2 : RPath} {key : String} (h : narrowStep cr key = some cr2) :
    cr2 ∈ cr.ancestors ∧ cr2 ∈ (parsePath key).ancestors := by
  refine ⟨List.mem_of_find?_eq_some h, ?_⟩
  have := List.find?_some h
  simpa using this

lemma narrowLoop_found_spec (fa : TaskAction) :
    ∀ (ts : List TaskConfig) (cr cr2 : RPath),
      narrowLoop fa cr ts = .found cr2 →
      cr2 ∈ cr.ancestors ∧ ∀ t ∈ ts, t.action = fa ∧ cr2 ∈ (parsePath t.key).ancestors := by
  intro ts
  induction ts with
  | nil =>
    intro cr cr2 h
    simp only [narrowLoop, NarrowOutcome.found.injEq] at h
    subst h
    exact ⟨self_mem_ancestors cr, by simp⟩
  | cons t rest ih =>
    intro cr cr2 h
    cases hstep : narrowStep cr t.key with
    | none => simp only [narrowLoop, hstep] at h; exact absurd h (by simp)
    | some cr1 =>
      by_cases hact : t.action = fa
      · simp only [narrowLoop, hstep, hact, ne_eq, not_true_eq_false, if_false] at h
        obtain ⟨h1, h2⟩ := ih cr1 cr2 h
        obtain ⟨hs1, hs2⟩ := narrowStep_some hstep
        refine ⟨ancestors_trans h1 hs1, ?_⟩
        intro u hu
        rcases List.mem_cons.mp hu with rfl | hu
        · exact ⟨hact, ancestors_trans h1 hs2⟩
        · exact h2 u hu
      · simp only [narrowLoop, hstep, hact, ne_eq, not_false_eq_true, if_true] at h
        exact absurd h (by simp)

lemma narrowLoop_fatal_spec (fa : TaskAction) :
    ∀ (pre : List TaskConfig) (t : TaskConfig) (post : List TaskConfig) (cr r : RPath),
      (∀ u ∈ pre, u.action = fa) → t.action ≠ fa →
      narrowAll cr (pre ++ [t]) = some r →
      narrowLoop fa cr (pre ++ t :: post) = .fatal := by
  intro pre
  induction pre with
  | nil =>
    intro t post cr r _ ht hall
    rw [List.nil_append] at hall
    cases hstep : narrowStep cr t.key with
    | none => simp only [narrowAll, hstep] at hall; exact absurd hall (by simp)
    | some cr2 =>
      rw [List.nil_append]
      simp only [narrowLoop, hstep, ht, ne_eq, not_false_eq_true, if_true]
  | cons u pre ih =>
    intro t post cr r hpre ht hall
    rw [List.cons_append] at hall
    cases hstep : narrowStep cr u.key with
    | none => simp only [narrowAll, hstep] at hall; exact absurd hall (by simp)
    | some cr2 =>
      simp only [narrowAll, hstep] at hall
      rw [List.cons_append]
      have hu : u.action = fa := hpre u (List.mem_cons_self u pre)
      simp only [narrowLoop, hstep, hu, ne_eq, not_true_eq_false, if_false]
      exact ih t post cr2 r (fun v hv => hpre v (List.mem_cons_of_mem u hv)) ht hall

/-- Everything the directory result of `find_common_parent_dir` implies:
the eligibility conditions were met, every task has the first task's
action, and the returned string is a common ancestor of every task key
with the separator appended. -/
lemma find_directory_conditions {config : BenchmarkConfig} {p : String}
    (h : find_common_parent_dir config = .directory p) :
    config.workload.files_on_disk = true ∧
    config.disable_directory = false ∧
    2 ≤ config.workload.tasks.length ∧
    (∃ fa, ∀ t ∈ config.workload.tasks, t.action = fa) ∧
    (∃ common_root : RPath, p = common_root.render ++ "/" ∧
      ∀ t ∈ config.workload.tasks, common_root ∈ (parsePath t.key).ancestors) := by
  unfold find_common_parent_dir at h
  split at h
  case isFalse => exact absurd h (by simp)
  case isTrue hcond =>
    obtain ⟨hdisk, hdd, hlen⟩ := hcond
    refine ⟨hdisk, hdd, by omega, ?_⟩
    split at h
    case h_1 => exact absurd h (by simp)
    case h_2 first_task rest heq =>
      split at h
      case h_1 => exact absurd h (by simp)
      case h_2 cr0 hparent =>
        split at h
        case h_1 => exact absurd h (by simp)
        case h_2 => exact absurd h (by simp)
        case h_3 common_root hloop =>
          obtain ⟨_, hall⟩ := narrowLoop_found_spec first_task.action _ _ _ hloop
          have hp : p = common_root.render ++ "/" := by
            have := h
            simp only [FindResult.directory.injEq] at this
            exact this.symm
          exact ⟨⟨first_task.action, fun t ht => (hall t ht).1⟩,
                 common_root, hp, fun t ht => (hall t ht).2⟩

/-! ## Claim C1 -/

/-- C1: for every workload file whose declared version differs from the
supported constant 2, and for every workload file that cannot be parsed
against the expected schema, loading the benchmark configuration returns a
SkipBenchmark error, never a plain Fail error, and never a (partially)
constructed BenchmarkConfig. -/
theorem config_load_skips_on_parse_or_version
    (open_result : Except String Unit) (parse_result : Except String WorkloadConfig)
    (bucket region : String) (target : ℚ) (dd : Bool)
    (hopen : open_result = .ok ())
    (hbad : (∃ e, parse_result = .error e) ∨
            (∃ w, parse_result = .ok w ∧ w.version ≠ 2)) :
    ∃ msg, BenchmarkConfig.new open_result parse_result bucket region target dd =
      .error (.skip msg) := by
  subst hopen
  rcases hbad with ⟨e, he⟩ | ⟨w, hw, hv⟩
  · subst he
    exact ⟨_, rfl⟩
  · subst hw
    refine ⟨"Workload version not supported", ?_⟩
    simp only [BenchmarkConfig.new, if_pos hv]

/-- Witness for C1: a version-3 workload is loaded as a skip. -/
theorem config_load_skips_on_parse_or_version_witness :
    ∃ msg, BenchmarkConfig.new (.ok ()) (.ok ⟨3, false, none, 1, 60, []⟩)
      "bkt" "rgn" 100 false = .error (.skip msg) :=
  config_load_skips_on_parse_or_version _ _ _ _ _ _ rfl
    (Or.inr ⟨⟨3, false, none, 1, 60, []⟩, rfl, by decide⟩)

/-! ## Claim C2 -/

/-- C2: the selector returns Directory only when filesOnDisk is true,
disableDirectory is false, there are at least 2 tasks, every task has the
same action, and a common filesystem ancestor exists across every task
key; the returned string is that (narrowed) common ancestor with a
trailing separator.  In particular the keys a/b/x, a/b/y, a/c/z (all
downloads) give the common ancestor a/, and tasks with no shared ancestor
select PerObject. -/
theorem transfer_strategy_directory_spec :
    (∀ (config : BenchmarkConfig) (p : String),
      find_common_parent_dir config = .directory p →
        config.workload.files_on_disk = true ∧
        config.disable_directory = false ∧
        2 ≤ config.workload.tasks.length ∧
        (∃ fa, ∀ t ∈ config.workload.tasks, t.action = fa) ∧
        (∃ common_root : RPath, p = common_root.render ++ "/" ∧
          ∀ t ∈ config.workload.tasks, common_root ∈ (parsePath t.key).ancestors)) ∧
    find_common_parent_dir (mkDiskConfig none exampleDirTasks) = .directory "a/" ∧
    find_common_parent_dir (mkDiskConfig none exampleNoRootTasks) = .perObject :=
  ⟨fun _ _ h => find_directory_conditions h, by decide, by decide⟩

/-- Witness for C2: instantiating the universal part at the a/b/x, a/b/y,
a/c/z example shows the computed string a/ is a common ancestor with the
separator appended. -/
theorem transfer_strategy_directory_spec_witness :
    (mkDiskConfig none exampleDirTasks).workload.files_on_disk = true ∧
    (∃ common_root : RPath, "a/" = common_root.render ++ "/" ∧
      ∀ t ∈ (mkDiskConfig none exampleDirTasks).workload.tasks,
        common_root ∈ (parsePath t.key).ancestors) := by
  obtain ⟨h1, _, _, _, h5⟩ :=
    transfer_strategy_directory_spec.1 (mkDiskConfig none exampleDirTasks) "a/" (by decide)
  exact ⟨h1, h5⟩

/-! ## Claim C6 -/

/-- C6: a Download task completes successfully only if the total number of
bytes received exactly equals the declared task size; when the chunk
stream drains without error but the total differs from the declared size
(for example the engine delivered fewer bytes), the result is the
assertion failure, never a silent success. -/
theorem download_ok_iff_exact_size (task : TaskConfig) (chunks : List (Except String Nat)) :
    (download task chunks = .ok → downloadLoop 0 chunks = .ok task.size) ∧
    (∀ total, downloadLoop 0 chunks = .ok total → total ≠ task.size →
      download task chunks = .assertionFailed) := by
  constructor
  · intro h
    cases hloop : downloadLoop 0 chunks with
    | error e => simp only [download, hloop] at h; exact absurd h (by simp)
    | ok total =>
      simp only [download, hloop] at h
      by_cases htot : total = task.size
      · rw [htot]
      · rw [if_neg htot] at h
        exact absurd h (by simp)
  · intro total hloop hne
    simp only [download, hloop]
    rw [if_neg hne]

/-- Witness for C6: an engine that delivers 50 bytes for a task declaring
100 produces the assertion failure. -/
theorem download_ok_iff_exact_size_witness :
    download ⟨.download, "key1", 100⟩ [.ok 50] = .assertionFailed :=
  (download_ok_iff_exact_size ⟨.download, "key1", 100⟩ [.ok 50]).2 50 rfl (by decide)

/-! ## Claim C7 -/

/-- C7: whenever Directory mode is selected, the tasks are uploads, and a
checksum algorithm is configured, the run dispatch returns the
SkipBenchmark signal, not a failure and not a silent per-object
fallback. -/
theorem run_dispatch_skips_checksum_directory_upload
    (config : BenchmarkConfig) (p : String) (alg : String)
    (hdir : find_common_parent_dir config = .directory p)
    (hact : ∀ t ∈ config.workload.tasks, t.action = TaskAction.upload)
    (hsum : config.workload.checksum = some alg) :
    ∃ msg, run_dispatch config = .skip msg := by
  obtain ⟨_, _, hlen, _, _⟩ := find_directory_conditions hdir
  cases htasks : config.workload.tasks with
  | nil => rw [htasks] at hlen; simp at hlen
  | cons first_task rest =>
    have hfirst : first_task.action = TaskAction.upload :=
      hact first_task (htasks ▸ List.mem_cons_self first_task rest)
    simp only [run_dispatch, hdir, htasks, hfirst, hsum, Option.isSome_some, if_true]
    exact ⟨_, rfl⟩

/-- Witness for C7: two checksummed uploads under a/ are skipped. -/
theorem run_dispatch_skips_checksum_directory_upload_witness :
    ∃ msg,
      run_dispatch
        (mkDiskConfig (some "CRC32") [⟨.upload, "a/b", 1⟩, ⟨.upload, "a/c", 1⟩]) =
      .skip msg :=
  run_dispatch_skips_checksum_directory_upload
    (mkDiskConfig (some "CRC32") [⟨.upload, "a/b", 1⟩, ⟨.upload, "a/c", 1⟩])
    "a/" "CRC32" (by decide) (by decide) rfl

/-! ## Claim C8 -/

/-- C8: for a workload eligible for directory-mode consideration in which
the first task whose action differs from the first task's action is
reached with the narrowing still succeeding (a common filesystem root
exists across the tasks examined so far), strategy selection is the fatal
panic, not a silent PerObject fallback. -/
theorem find_common_parent_dir_mixed_actions_fatal
    (config : BenchmarkConfig) (f t : TaskConfig) (pre post : List TaskConfig)
    (cr0 r : RPath)
    (hdisk : config.workload.files_on_disk = true)
    (hdd : config.disable_directory = false)
    (hlen : 1 < config.workload.tasks.length)
    (hhead : config.workload.tasks.head? = some f)
    (hsplit : config.workload.tasks = pre ++ t :: post)
    (hparent : (parsePath f.key).parent = some cr0)
    (hpre : ∀ u ∈ pre, u.action = f.action)
    (hdiff : t.action ≠ f.action)
    (hroot : narrowAll cr0 (pre ++ [t]) = some r) :
    find_common_parent_dir config = .fatal := by
  cases htasks : config.workload.tasks with
  | nil => rw [htasks] at hlen; simp at hlen
  | cons first_task rest =>
    have hf : first_task = f := by
      rw [htasks] at hhead
      simpa using hhead
    subst hf
    have hcond : config.workload.files_on_disk = true ∧
        config.disable_directory = false ∧ 1 < config.workload.tasks.length :=
      ⟨hdisk, hdd, hlen⟩
    simp only [find_common_parent_dir, if_pos hcond, htasks, hparent]
    rw [htasks] at hsplit
    rw [hsplit, narrowLoop_fatal_spec first_task.action pre t post cr0 r hpre hdiff hroot,
      if_pos ⟨hdisk, hdd, by rw [← hsplit, ← htasks]; exact hlen⟩]

/-- Concrete configuration for the C8 witness: one download and one upload
below the shared directory a/. -/
def mixedActionConfig : BenchmarkConfig :=
  mkDiskConfig none [⟨.download, "a/b", 1⟩, ⟨.upload, "a/c", 1⟩]

/-- Witness for C8: a download of a/b followed by an upload of a/c shares
the root a yet mixes actions, so selection is fatal. -/
theorem find_common_parent_dir_mixed_actions_fatal_witness :
    find_common_parent_dir mixedActionConfig = .fatal :=
  find_common_parent_dir_mixed_actions_fatal mixedActionConfig
    ⟨.download, "a/b", 1⟩ ⟨.upload, "a/c", 1⟩
    [⟨.download, "a/b", 1⟩] [] ⟨false, [['a']]⟩ ⟨false, [['a']]⟩
    rfl rfl (by decide) rfl rfl (by decide) (by decide) (by decide) (by decide)

/-! ## Helper lemmas: payload synthesizer -/

/-- Master characterization of the copy loop: starting from a buffer that
is the first `m` values of the periodic sequence `i ↦ rng (i % L)`, with
`m` a positive multiple of the random-part length `L` and `m ≤ size`, the
loop produces the first `size` values of that periodic sequence. -/
lemma fillLoop_eq_mod {α : Type} (rng : Nat → α) (L size : Nat) :
    ∀ d m (data : List α), size - m = d →
      data = (List.range m).map (fun i => rng (i % L)) →
      0 < m → m ≤ size → L ∣ m →
      fillLoop size data = (List.range size).map (fun i => rng (i % L)) := by
  intro d
  induction d using Nat.strong_induction_on with
  | _ d ih =>
    intro m data hd hdata h0 hle hdvd
    have hlen : data.length = m := by rw [hdata]; simp
    by_cases hms : m < size
    · rw [fillLoop, dif_pos (by rw [hlen]; exact ⟨h0, hms⟩)]
      have he' : min data.length (size - data.length) = min m (size - m) := by rw [hlen]
      obtain ⟨q, hq⟩ := hdvd
      have hstep : data ++ data.take (min data.length (size - data.length)) =
          (List.range (m + min m (size - m))).map (fun i => rng (i % L)) := by
        have hminm : min (min m (size - m)) m = min m (size - m) := by omega
        rw [he', hdata, ← List.map_take, List.take_range, hminm,
          List.range_add, List.map_append, List.map_map]
        congr 1
        apply List.map_congr_left
        intro i _
        simp only [Function.comp_apply]
        rw [hq, Nat.mul_add_mod]
      rw [hstep]
      by_cases hfin : m + min m (size - m) = size
      · rw [hfin, fillLoop, dif_neg (by simp)]
      · have hmin : min m (size - m) = m := by omega
        rw [hmin] at hstep ⊢
        exact ih (size - (m + m)) (by omega) (m + m) _ rfl rfl (by omega) (by omega)
          ⟨2 * q, by rw [hq]; ring⟩
    · have hms' : m = size := by omega
      rw [fillLoop, dif_neg (by rw [hlen]; omega), hdata, hms']

/-- `new_random_bytes` produces exactly the first `size` values of the
sequence that repeats the random part with period `min 31415926 size`. -/
lemma new_random_bytes_eq_mod {α : Type} (rng : Nat → α) (size : Nat) :
    new_random_bytes rng size =
      (List.range size).map (fun i => rng (i % min 31415926 size)) := by
  by_cases hs : size = 0
  · subst hs
    rw [show new_random_bytes rng 0 =
        fillLoop 0 ((List.range (min 31415926 0)).map rng) from rfl]
    rw [fillLoop, dif_neg (by simp)]
    simp
  · have hmin : 0 < min 31415926 size := by omega
    have hdata : (List.range (min 31415926 size)).map rng =
        (List.range (min 31415926 size)).map
          (fun i => rng (i % min 31415926 size)) := by
      apply List.map_congr_left
      intro i hi
      rw [List.mem_range] at hi
      rw [Nat.mod_eq_of_lt hi]
    rw [show new_random_bytes rng size =
        fillLoop size ((List.range (min 31415926 size)).map rng) from rfl, hdata]
    exact fillLoop_eq_mod rng (min 31415926 size) size (size - min 31415926 size)
      (min 31415926 size) _ rfl rfl hmin (by omega) (dvd_refl _)

/-! ## Claim C4 -/

/-- C4: for every non-negative size n, the payload synthesizer returns a
buffer whose length is exactly n, whatever values the RNG produced. -/
theorem new_random_bytes_length {α : Type} (rng : Nat → α) (size : Nat) :
    (new_random_bytes rng size).length = size := by
  rw [new_random_bytes_eq_mod]
  simp

/-! ## Claim C5 -/

/-- C5 counterexample: in a synthesized buffer of twice the random-part
length, the slice starting at offset 0 and the non-overlapping slice
starting at offset 31415926 (exactly the random-prefix length apart, each
of that full length) are byte-identical, because the copy loop makes the
buffer periodic.  This holds for every RNG; it is shown at one concrete
RNG. -/
theorem new_random_bytes_identical_slices_counterexample :
    (new_random_bytes (fun i => i % 251) (2 * 31415926)).length = 2 * 31415926 ∧
    (new_random_bytes (fun i => i % 251) (2 * 31415926)).take 31415926 =
      ((new_random_bytes (fun i => i % 251) (2 * 31415926)).drop 31415926).take
        31415926 := by
  have h := new_random_bytes_eq_mod (fun i => i % 251) (2 * 31415926)
  have hmin : min 31415926 (2 * 31415926) = 31415926 := by omega
  rw [hmin] at h
  rw [h]
  refine ⟨by simp, ?_⟩
  have h2 : (2 : Nat) * 31415926 = 31415926 + 31415926 := by norm_num
  rw [h2, List.range_add, List.map_append]
  rw [List.take_left' (by simp), List.drop_left' (by simp)]
  rw [List.take_of_length_le (by simp), List.map_map]
  apply List.map_congr_left
  intro i _
  simp only [Function.comp_apply]
  rw [Nat.add_mod_left]

/-- C5 (amended): two equal-length slices of a synthesized buffer are
byte-identical whenever their offsets are congruent modulo the random-part
length `min 31415926 size`; this is what the copy loop guarantees, and the
counterexample above instantiates it at offsets exactly the random-prefix
length apart, refuting the claimed non-identity. -/
theorem new_random_bytes_periodic {α : Type} (rng : Nat → α)
    (size i j len : Nat)
    (hi : i + len ≤ size) (hj : j + len ≤ size)
    (hmod : i % min 31415926 size = j % min 31415926 size) :
    ((new_random_bytes rng size).drop i).take len =
      ((new_random_bytes rng size).drop j).take len := by
  rw [new_random_bytes_eq_mod]
  apply List.ext_getElem
  · simp
    omega
  · intro k hk1 hk2
    simp only [List.getElem_take, List.getElem_drop, List.getElem_map, List.getElem_range]
    have hcong : (i + k) % min 31415926 size = (j + k) % min 31415926 size :=
      Nat.ModEq.add_right k hmod
    rw [hcong]

/-- Witness for C5 (amended): at size 31415927 the byte at offset 0 equals
the byte at offset 31415926, since the offsets are congruent modulo the
random-part length 31415926. -/
theorem new_random_bytes_periodic_witness :
    (0 + 1 ≤ 31415927 ∧ 31415926 + 1 ≤ 31415927 ∧
      0 % min 31415926 31415927 = 31415926 % min 31415926 31415927) ∧
    ((new_random_bytes (fun i => i % 251) 31415927).drop 0).take 1 =
      ((new_random_bytes (fun i => i % 251) 31415927).drop 31415926).take 1 :=
  ⟨⟨by decide, by decide, by decide⟩,
    new_random_bytes_periodic (fun i => i % 251) 31415927 0 31415926 1
      (by decide) (by decide) (by decide)⟩

/-! ## Helper lemmas: list maximum -/

lemma le_foldl_max_init : ∀ (t : List Nat) (b : Nat), b ≤ t.foldl max b := by
  intro t
  induction t with
  | nil => intro b; exact le_refl b
  | cons c t ih =>
    intro b
    rw [List.foldl_cons]
    exact le_trans (Nat.le_max_left b c) (ih (max b c))

lemma le_foldl_max_mem : ∀ (t : List Nat) (b : Nat), ∀ a ∈ t, a ≤ t.foldl max b := by
  intro t
  induction t with
  | nil => intro b a ha; exact absurd ha (by simp)
  | cons c t ih =>
    intro b a ha
    rw [List.foldl_cons]
    rcases List.mem_cons.mp ha with rfl | ha
    · exact le_trans (Nat.le_max_right b a) (le_foldl_max_init t (max b a))
    · exact ih (max b c) a ha

lemma le_max?_getD (l : List Nat) (a : Nat) (ha : a ∈ l) : a ≤ l.max?.getD 0 := by
  cases l with
  | nil => exact absurd ha (by simp)
  | cons b t =>
    have : (b :: t).max? = some (t.foldl max b) := rfl
    rw [this, Option.getD_some]
    rcases List.mem_cons.mp ha with rfl | ha
    · exact le_foldl_max_init t a
    · exact le_foldl_max_mem t b a ha

/-! ## Claim C10 -/

/-- C10: when filesOnDisk is false the shared upload buffer has length
equal to the maximum size over upload tasks (0 if there are none), so
every upload task's slice 0..size is in bounds and never panics; when
filesOnDisk is true the buffer is created empty regardless of task
sizes. -/
theorem upload_buffer_covers_upload_tasks {α : Type} (rng : Nat → α)
    (config : BenchmarkConfig) :
    (config.workload.files_on_disk = false →
      (random_data_for_upload rng config).length =
        (((config.workload.tasks.filter
            (fun t => t.action = TaskAction.upload)).map (fun t => t.size)).max?).getD 0 ∧
      ∀ t ∈ config.workload.tasks, t.action = TaskAction.upload →
        t.size ≤ (random_data_for_upload rng config).length ∧
        upload_stream rng config t ≠ .slicePanicked) ∧
    (config.workload.files_on_disk = true →
      (random_data_for_upload rng config).length = 0) := by
  have hlen : (random_data_for_upload rng config).length = upload_data_size config :=
    new_random_bytes_length rng (upload_data_size config)
  constructor
  · intro hdisk
    have hsize : upload_data_size config =
        (((config.workload.tasks.filter
            (fun t => t.action = TaskAction.upload)).map (fun t => t.size)).max?).getD 0 := by
      simp [upload_data_size, hdisk]
    refine ⟨by rw [hlen, hsize], ?_⟩
    intro t ht hup
    have hmem : t.size ∈ (config.workload.tasks.filter
        (fun u => u.action = TaskAction.upload)).map (fun u => u.size) :=
      List.mem_map.mpr ⟨t, List.mem_filter.mpr ⟨ht, by simp [hup]⟩, rfl⟩
    have hle := le_max?_getD _ _ hmem
    have h1 : t.size ≤ (random_data_for_upload rng config).length := by
      rw [hlen, hsize]; exact hle
    refine ⟨h1, ?_⟩
    simp only [upload_stream, hdisk, Bool.false_eq_true, if_false, if_pos h1]
    simp
  · intro hdisk
    rw [hlen]
    simp [upload_data_size, hdisk]

/-- Concrete configuration for the C10 witness: in-memory workload with
two uploads of sizes 5 and 3 and one download. -/
def memoryUploadConfig : BenchmarkConfig :=
  ⟨⟨2, false, none, 1, 60, [⟨.upload, "k1", 5⟩, ⟨.download, "k2", 9⟩, ⟨.upload, "k3", 3⟩]⟩,
    "bkt", "rgn", 100, false⟩

/-- Witness for C10: the size-5 upload task of the in-memory workload fits
the shared buffer and its slice does not panic. -/
theorem upload_buffer_covers_upload_tasks_witness :
    5 ≤ (random_data_for_upload (fun i => i % 251) memoryUploadConfig).length ∧
    upload_stream (fun i => i % 251) memoryUploadConfig ⟨.upload, "k1", 5⟩ ≠
      .slicePanicked :=
  ((upload_buffer_covers_upload_tasks (fun i => i % 251) memoryUploadConfig).1 rfl).2
    ⟨.upload, "k1", 5⟩ (by decide) rfl

/-! ## Helper lemma: run loop -/

lemma runLoopGo_spec (max_repeat_secs : ℚ) (prep_ok run_ok : Nat → Bool)
    (elapsed_after : Nat → ℚ)
    (hprep : ∀ n, prep_ok n = true) (hrun : ∀ n, run_ok n = true) :
    ∀ (remaining run_num : Nat), 1 ≤ run_num →
      ∃ res ok,
        runLoopGo max_repeat_secs prep_ok run_ok elapsed_after run_num remaining =
          (res, ok) ∧
        ok = true ∧
        run_num - 1 ≤ res ∧
        res ≤ run_num - 1 + remaining ∧
        (0 < remaining → run_num ≤ res) ∧
        (res < run_num - 1 + remaining → max_repeat_secs ≤ elapsed_after res) ∧
        (∀ m, run_num ≤ m → m < res → elapsed_after m < max_repeat_secs) ∧
        (0 < remaining → max_repeat_secs ≤ elapsed_after run_num → res = run_num) := by
  intro remaining
  induction remaining with
  | zero =>
    intro run_num h1
    refine ⟨run_num - 1, true, rfl, rfl, le_refl _, by omega, ?_, ?_, ?_, ?_⟩
    · intro h; exact absurd h (by omega)
    · intro h; exact absurd h (by omega)
    · intro m hm1 hm2
      have : False := by omega
      exact this.elim
    · intro h; exact absurd h (by omega)
  | succ remaining ih =>
    intro run_num h1
    simp only [runLoopGo]
    rw [if_neg (by simp [hprep run_num]), if_neg (by simp [hrun run_num])]
    by_cases hstop : max_repeat_secs ≤ elapsed_after run_num
    · rw [if_pos hstop]
      refine ⟨run_num, true, rfl, rfl, by omega, by omega, fun _ => le_refl _,
        fun _ => hstop, ?_, fun _ _ => rfl⟩
      intro m hm1 hm2
      have : False := by omega
      exact this.elim
    · rw [if_neg hstop]
      obtain ⟨res, ok, heq, hok, hb1, hb2, hb0, hb3, hb4, hb5⟩ :=
        ih (run_num + 1) (by omega)
      refine ⟨res, ok, heq, hok, by omega, by omega, fun _ => by omega, ?_, ?_, ?_⟩
      · intro hlt
        exact hb3 (by omega)
      · intro m hm1 hm2
        by_cases hm : m = run_num
        · subst hm
          exact lt_of_not_le hstop
        · exact hb4 m (by omega) hm2
      · intro _ habs
        exact absurd habs hstop

/-! ## Claim C9 -/

/-- C9 counterexample to the claim as stated: with maxRepeatCount 2,
maxRepeatSecs 5, and the elapsed clock reading exactly 5 after each run,
the loop stops early after run 1 even though the elapsed time does not
strictly exceed maxRepeatSecs (the source breaks on greater-or-equal). -/
theorem execute_runs_boundary_counterexample :
    execute_runs 2 5 (fun _ => true) (fun _ => true) (fun _ => 5) = (1, true) ∧
    (1 : Nat) < 2 ∧ ¬ ((5 : ℚ) < 5) :=
  ⟨by decide, by decide, by decide⟩

/-- C9 (amended): with maxRepeatCount ≥ 1 and every prepare/run step
succeeding, the loop performs at least 1 and at most maxRepeatCount runs,
stops early only when the elapsed time observed after a completed run
equals or exceeds maxRepeatSecs, never stops at a check where the elapsed
time is still below the budget, and performs exactly 1 run when the clock
already reads at least maxRepeatSecs after the first run. -/
theorem execute_runs_budget_spec (max_repeat_count : Nat) (max_repeat_secs : ℚ)
    (prep_ok run_ok : Nat → Bool) (elapsed_after : Nat → ℚ)
    (hcount : 1 ≤ max_repeat_count)
    (hprep : ∀ n, prep_ok n = true) (hrun : ∀ n, run_ok n = true) :
    1 ≤ (execute_runs max_repeat_count max_repeat_secs prep_ok run_ok elapsed_after).1 ∧
    (execute_runs max_repeat_count max_repeat_secs prep_ok run_ok elapsed_after).1 ≤
      max_repeat_count ∧
    (execute_runs max_repeat_count max_repeat_secs prep_ok run_ok elapsed_after).2 =
      true ∧
    ((execute_runs max_repeat_count max_repeat_secs prep_ok run_ok elapsed_after).1 <
        max_repeat_count →
      max_repeat_secs ≤ elapsed_after
        (execute_runs max_repeat_count max_repeat_secs prep_ok run_ok elapsed_after).1) ∧
    (∀ m, 1 ≤ m →
      m < (execute_runs max_repeat_count max_repeat_secs prep_ok run_ok elapsed_after).1 →
      elapsed_after m < max_repeat_secs) ∧
    (max_repeat_secs ≤ elapsed_after 1 →
      (execute_runs max_repeat_count max_repeat_secs prep_ok run_ok elapsed_after).1 = 1) := by
  obtain ⟨res, ok, heq, hok, hb1, hb2, hb0, hb3, hb4, hb5⟩ :=
    runLoopGo_spec max_repeat_secs prep_ok run_ok elapsed_after hprep hrun
      max_repeat_count 1 (le_refl 1)
  rw [show execute_runs max_repeat_count max_repeat_secs prep_ok run_ok elapsed_after =
    (res, ok) from heq]
  refine ⟨hb0 (by omega), by omega, hok, ?_, ?_, ?_⟩
  · intro h
    exact hb3 (by omega)
  · intro m hm1 hm2
    exact hb4 m hm1 hm2
  · intro h
    exact hb5 (by omega) h

/-- Witness for C9 (amended): maxRepeatCount 5 with a tiny time budget of
1/1000 and a clock that reads 1 after the first run performs exactly 1
run. -/
theorem execute_runs_budget_spec_witness :
    ((1 : Nat) ≤ 5 ∧ mkRat 1 1000 ≤ 1) ∧
    (execute_runs 5 (mkRat 1 1000) (fun _ => true) (fun _ => true) (fun _ => 1)).1 = 1 :=
  ⟨⟨by decide, by decide⟩,
    (execute_runs_budget_spec 5 (mkRat 1 1000) (fun _ => true) (fun _ => true)
      (fun _ => 1) (by decide) (fun _ => rfl) (fun _ => rfl)).2.2.2.2.2 (by decide)⟩

/-! ## Claim C3 -/

/-- C3: the per-object scheduler propagates the first error observed in
the completion-order stream as the run's result and never examines the
entries after it — the conclusion holds for every tail, including tails
with further errors (at most one failure reported) and tails standing for
tasks whose results are never delivered; when task k's error is the first
completion observed, the run returns task k's error with the remaining
results unconsumed; a stream of only successes yields Ok. -/
theorem runAll_fail_fast :
    (∀ (oks rest : List (Except String Unit)) (e : String),
      (∀ r ∈ oks, r = .ok ()) →
      runAll (oks ++ .error e :: rest) = .error e) ∧
    (∀ results : List (Except String Unit),
      (∀ r ∈ results, r = .ok ()) → runAll results = .ok ()) := by
  constructor
  · intro oks
    induction oks with
    | nil => intro rest e _; rfl
    | cons r oks ih =>
      intro rest e hoks
      have hr : r = .ok () := hoks r (List.mem_cons_self r oks)
      subst hr
      rw [List.cons_append]
      exact ih rest e (fun u hu => hoks u (List.mem_cons_of_mem _ hu))
  · intro results
    induction results with
    | nil => intro _; rfl
    | cons r rest ih =>
      intro h
      have hr : r = .ok () := h r (List.mem_cons_self r rest)
      subst hr
      exact ih (fun u hu => h u (List.mem_cons_of_mem _ hu))

/-- Witness for C3: one success completes first, then task 2's error;
the two completions after it (one of them a further error) are never
examined, and the run result is task 2's error. -/
theorem runAll_fail_fast_witness :
    runAll [.ok (), .error "task 2 failed", .error "task 3 failed", .ok ()] =
      .error "task 2 failed" :=
  runAll_fail_fast.1 [.ok ()] [.error "task 3 failed", .ok ()] "task 2 failed"
    (fun r hr => by simpa using hr)
